import Mathlib

/-!
Shallow embedding of the FireCalc retirement-withdrawal projection engine
(`Fire_Calc.py`) over exact rational arithmetic, together with proofs of the
specification's claims about it.
-/

namespace FireCalc

/-- Investment growth of one year (`growth = capital[-1] * (return_rate / 100)`,
line 139 of the source). -/
def growthOf (capital return_rate : ℚ) : ℚ :=
  capital * (return_rate / 100)

/-- Tax owed on one year's growth
(`tax = growth * (taxable_percentage / 100) * (tax_rate / 100)`, line 140). -/
def taxOf (growth taxable_percentage tax_rate : ℚ) : ℚ :=
  growth * (taxable_percentage / 100) * (tax_rate / 100)

/-- The body of `calculate_retirement`'s `for` loop (lines 130-146), as a
recursion on the number of remaining years.  The carried state is the last
element of each of the three lists (`capital[-1]`, `expenses[-1]`,
`withdrawals[-1]`); the function returns the elements appended after the
initial ones.  The loop records `max(0, new_capital)` and `break`s as soon as
the unfloored `new_capital` is `≤ 0`. -/
def calcLoop (return_rate inflation_rate tax_rate taxable_percentage :
    ℚ) : ℚ → ℚ → ℚ → ℕ → List ℚ × List ℚ × List ℚ
  | _, _, _, 0 => ([], [], [])
  | cap, e, f, n + 1 =>
    let current_expenses := e * (1 + inflation_rate / 100)
    let current_withdrawal := f * (1 + inflation_rate / 100)
    let withdrawal := max current_expenses current_withdrawal
    let growth := growthOf cap return_rate
    let tax := taxOf growth taxable_percentage tax_rate
    let new_capital := cap + growth - tax - withdrawal
    if new_capital ≤ 0 then
      ([max 0 new_capital], [current_expenses], [current_withdrawal])
    else
      let rest := calcLoop return_rate inflation_rate tax_rate
        taxable_percentage new_capital current_expenses current_withdrawal n
      (max 0 new_capital :: rest.1, current_expenses :: rest.2.1,
        current_withdrawal :: rest.2.2)

/-- `calculate_retirement` (lines 126-147): returns the `capital`, `expenses`
and `withdrawals` lists. -/
def calculate_retirement (initial_capital withdrawal_rate annual_expenses : ℚ)
    (years : ℕ) (return_rate inflation_rate tax_rate taxable_percentage : ℚ) :
    List ℚ × List ℚ × List ℚ :=
  let w0 := max annual_expenses (initial_capital * (withdrawal_rate / 100))
  let t := calcLoop return_rate inflation_rate tax_rate taxable_percentage
    initial_capital annual_expenses w0 years
  (initial_capital :: t.1, annual_expenses :: t.2.1, w0 :: t.2.2)

/-- The `while high - low > tol` bisection loop of `find_sustainable_value`
(lines 151-160), with an explicit fuel argument; once the interval width is
at most `tol` (or the fuel runs out, which `bisectFuel` below makes
unreachable) it returns `high`. -/
def bisectLoop (tol : ℚ) (P : ℚ → Bool) : ℚ → ℚ → ℕ → ℚ
  | _, high, 0 => high
  | low, high, fuel + 1 =>
    if high - low > tol then
      let mid := (low + high) / 2
      if P mid then bisectLoop tol P low mid fuel
      else bisectLoop tol P mid high fuel
    else high

/-- Enough fuel for `bisectLoop`: the interval width halves each iteration, so
`⌈width / tol⌉ + 1` iterations always reach `width ≤ tol`. -/
def bisectFuel (tol width : ℚ) : ℕ :=
  (⌈width / tol⌉).toNat + 1

/-- `find_sustainable_value` (lines 149-161): bisection over the initial
capital (`find_capital = true`) or over the withdrawal rate
(`find_capital = false`), moving `high` to the midpoint whenever the
projection at the midpoint survives more than `target_years` recorded steps,
and returning `high`. -/
def find_sustainable_value (target_years : ℕ)
    (annual_expenses return_rate inflation_rate tax_rate taxable_percentage :
      ℚ) (find_capital : Bool) (initial_value withdrawal_rate : ℚ) : ℚ :=
  let low : ℚ := 0
  let high : ℚ := if find_capital then initial_value * 10 else 20
  let tol : ℚ := if find_capital then 1 else 1 / 100
  let P : ℚ → Bool := fun mid =>
    let r :=
      if find_capital then
        calculate_retirement mid withdrawal_rate annual_expenses target_years
          return_rate inflation_rate tax_rate taxable_percentage
      else
        calculate_retirement initial_value mid annual_expenses target_years
          return_rate inflation_rate tax_rate taxable_percentage
    decide (target_years < r.1.length)
  bisectLoop tol P low high (bisectFuel tol (high - low))

/-- `real_return_rate` (line 255). -/
def real_return_rate (return_rate inflation_rate : ℚ) : ℚ :=
  return_rate - inflation_rate

/-- `after_tax_real_return_rate` (line 256). -/
def after_tax_real_return_rate
    (return_rate inflation_rate tax_rate taxable_percentage : ℚ) : ℚ :=
  real_return_rate return_rate inflation_rate *
    (1 - (tax_rate / 100) * (taxable_percentage / 100))

/-- `sustainable_withdrawal` (line 259). -/
def sustainable_withdrawal
    (initial_capital return_rate inflation_rate tax_rate taxable_percentage :
      ℚ) : ℚ :=
  initial_capital *
    (after_tax_real_return_rate return_rate inflation_rate tax_rate
      taxable_percentage / 100)

/-- `perpetuity_withdrawal_rate` (line 264).  Python division raises
`ZeroDivisionError` on a zero divisor, embedded here as `none`. -/
def perpetuity_withdrawal_rate
    (initial_capital return_rate inflation_rate tax_rate taxable_percentage :
      ℚ) : Option ℚ :=
  if initial_capital = 0 then none
  else some (sustainable_withdrawal initial_capital return_rate inflation_rate
    tax_rate taxable_percentage / initial_capital * 100)

/-- `required_capital_perpetuity` (line 268).  Python division raises
`ZeroDivisionError` on a zero divisor, embedded here as `none`. -/
def required_capital_perpetuity
    (annual_expenses return_rate inflation_rate tax_rate taxable_percentage :
      ℚ) : Option ℚ :=
  if after_tax_real_return_rate return_rate inflation_rate tax_rate
      taxable_percentage / 100 = 0 then none
  else some (annual_expenses /
    (after_tax_real_return_rate return_rate inflation_rate tax_rate
      taxable_percentage / 100))

/-! ### Specification-level sequences

The loop state of `calculate_retirement` as pure sequences: `expSeq` and
`wdSeq` are the recorded expense and withdrawal entries, `capSeq` is the
*unfloored* running balance (`new_capital` before `max(0, ·)`), which agrees
with the carried `capital[-1]` at every index the loop reaches. -/

/-- The recorded expense at index `n`: `annual_expenses` escalated by the
inflation factor `n` times. -/
def expSeq (annual_expenses inflation_rate : ℚ) : ℕ → ℚ
  | 0 => annual_expenses
  | n + 1 => expSeq annual_expenses inflation_rate n *
      (1 + inflation_rate / 100)

/-- The recorded withdrawal at index `n`: the year-0 withdrawal
`max(annual_expenses, initial_capital * withdrawal_rate / 100)` escalated by
the inflation factor `n` times. -/
def wdSeq (initial_capital withdrawal_rate annual_expenses inflation_rate :
    ℚ) : ℕ → ℚ
  | 0 => max annual_expenses (initial_capital * (withdrawal_rate / 100))
  | n + 1 => wdSeq initial_capital withdrawal_rate annual_expenses
      inflation_rate n * (1 + inflation_rate / 100)

/-- The unfloored capital balance at index `n`. -/
def capSeq (initial_capital withdrawal_rate annual_expenses return_rate
    inflation_rate tax_rate taxable_percentage : ℚ) : ℕ → ℚ
  | 0 => initial_capital
  | n + 1 =>
    let cap := capSeq initial_capital withdrawal_rate annual_expenses
      return_rate inflation_rate tax_rate taxable_percentage n
    let withdrawal := max (expSeq annual_expenses inflation_rate (n + 1))
      (wdSeq initial_capital withdrawal_rate annual_expenses inflation_rate
        (n + 1))
    let growth := growthOf cap return_rate
    let tax := taxOf growth taxable_percentage tax_rate
    cap + growth - tax - withdrawal

/-- Number of loop iterations `calcLoop` records when started at sequence
index `k` with `n` years of fuel: it stops at the first index whose unfloored
balance is `≤ 0`. -/
def stopLen (C : ℕ → ℚ) : ℕ → ℕ → ℕ
  | _, 0 => 0
  | k, n + 1 => if C (k + 1) ≤ 0 then 1 else 1 + stopLen C (k + 1) n

/-- The one-year balance multiplier
`1 + (return_rate/100) * (1 - (taxable_percentage/100) * (tax_rate/100))`. -/
def rateFactor (return_rate tax_rate taxable_percentage : ℚ) : ℚ :=
  1 + (return_rate / 100) *
    (1 - (taxable_percentage / 100) * (tax_rate / 100))

/-- The abstract linear recurrence `c_{n+1} = M * c_n - W * g^(n+1)` that the
balance follows once withdrawals reduce to the geometric sequence
`W * g^n`. -/
def linRec (M g W c0 : ℚ) : ℕ → ℚ
  | 0 => c0
  | n + 1 => M * linRec M g W c0 n - W * g ^ (n + 1)

/-! ### Bridge: the loop state equals the specification-level sequences -/

theorem calcLoop_eq (ic wr ae rr ir tr tp : ℚ) : ∀ n k : ℕ,
    calcLoop rr ir tr tp (capSeq ic wr ae rr ir tr tp k) (expSeq ae ir k)
      (wdSeq ic wr ae ir k) n =
    ((List.range (stopLen (capSeq ic wr ae rr ir tr tp) k n)).map
        (fun t => max 0 (capSeq ic wr ae rr ir tr tp (k + 1 + t))),
      (List.range (stopLen (capSeq ic wr ae rr ir tr tp) k n)).map
        (fun t => expSeq ae ir (k + 1 + t)),
      (List.range (stopLen (capSeq ic wr ae rr ir tr tp) k n)).map
        (fun t => wdSeq ic wr ae ir (k + 1 + t))) := by
  intro n
  induction n with
  | zero => intro k; simp [calcLoop, stopLen]
  | succ n ih =>
    intro k
    rw [calcLoop]
    have he : expSeq ae ir k * (1 + ir / 100) = expSeq ae ir (k + 1) := rfl
    have hw : wdSeq ic wr ae ir k * (1 + ir / 100) =
        wdSeq ic wr ae ir (k + 1) := rfl
    have hc : capSeq ic wr ae rr ir tr tp k +
        growthOf (capSeq ic wr ae rr ir tr tp k) rr -
        taxOf (growthOf (capSeq ic wr ae rr ir tr tp k) rr) tp tr -
        max (expSeq ae ir (k + 1)) (wdSeq ic wr ae ir (k + 1)) =
        capSeq ic wr ae rr ir tr tp (k + 1) := rfl
    simp only [he, hw, hc, stopLen]
    by_cases hd : capSeq ic wr ae rr ir tr tp (k + 1) ≤ 0
    · rw [if_pos hd, if_pos hd]
      simp [List.range_succ]
    · rw [if_neg hd, if_neg hd, ih (k + 1)]
      have hidx : ∀ t : ℕ, k + 1 + 1 + t = k + 1 + (t + 1) := fun t => by omega
      simp only [show ∀ L : ℕ, 1 + L = L + 1 from fun L => Nat.add_comm 1 L,
        List.range_succ_eq_map, List.map_cons, List.map_map,
        Function.comp_def, Nat.succ_eq_add_one, hidx, Nat.add_zero]

theorem calculate_retirement_eq (ic wr ae rr ir tr tp : ℚ) (T : ℕ) :
    calculate_retirement ic wr ae T rr ir tr tp =
    (ic :: (List.range (stopLen (capSeq ic wr ae rr ir tr tp) 0 T)).map
        (fun t => max 0 (capSeq ic wr ae rr ir tr tp (t + 1))),
      ae :: (List.range (stopLen (capSeq ic wr ae rr ir tr tp) 0 T)).map
        (fun t => expSeq ae ir (t + 1)),
      max ae (ic * (wr / 100)) ::
        (List.range (stopLen (capSeq ic wr ae rr ir tr tp) 0 T)).map
        (fun t => wdSeq ic wr ae ir (t + 1))) := by
  have h := calcLoop_eq ic wr ae rr ir tr tp T 0
  rw [calculate_retirement]
  simp only [show capSeq ic wr ae rr ir tr tp 0 = ic from rfl,
    show expSeq ae ir 0 = ae from rfl,
    show wdSeq ic wr ae ir 0 = max ae (ic * (wr / 100)) from rfl] at h
  simp only [show ∀ t : ℕ, 0 + 1 + t = t + 1 from fun t => by omega] at h
  simp only [h]

theorem cap_length (ic wr ae rr ir tr tp : ℚ) (T : ℕ) :
    (calculate_retirement ic wr ae T rr ir tr tp).1.length =
      stopLen (capSeq ic wr ae rr ir tr tp) 0 T + 1 := by
  rw [calculate_retirement_eq]
  simp [Nat.add_comm]

theorem exp_length (ic wr ae rr ir tr tp : ℚ) (T : ℕ) :
    (calculate_retirement ic wr ae T rr ir tr tp).2.1.length =
      stopLen (capSeq ic wr ae rr ir tr tp) 0 T + 1 := by
  rw [calculate_retirement_eq]
  simp [Nat.add_comm]

theorem wd_length (ic wr ae rr ir tr tp : ℚ) (T : ℕ) :
    (calculate_retirement ic wr ae T rr ir tr tp).2.2.length =
      stopLen (capSeq ic wr ae rr ir tr tp) 0 T + 1 := by
  rw [calculate_retirement_eq]
  simp [Nat.add_comm]

/-! ### Properties of `stopLen` -/

theorem stopLen_le (C : ℕ → ℚ) : ∀ n k, stopLen C k n ≤ n := by
  intro n
  induction n with
  | zero => intro k; simp [stopLen]
  | succ n ih =>
    intro k
    rw [stopLen]
    by_cases hd : C (k + 1) ≤ 0
    · rw [if_pos hd]; omega
    · rw [if_neg hd]; have := ih (k + 1); omega

theorem one_le_stopLen (C : ℕ → ℚ) : ∀ n k, 1 ≤ n → 1 ≤ stopLen C k n := by
  intro n k hn
  obtain ⟨m, rfl⟩ : ∃ m, n = m + 1 := ⟨n - 1, by omega⟩
  rw [stopLen]
  by_cases hd : C (k + 1) ≤ 0
  · rw [if_pos hd]
  · rw [if_neg hd]; omega

theorem stopLen_eq_of_pos (C : ℕ → ℚ) : ∀ n k,
    (∀ j, k < j → j ≤ k + n → 0 < C j) → stopLen C k n = n := by
  intro n
  induction n with
  | zero => intro k _; simp [stopLen]
  | succ n ih =>
    intro k h
    rw [stopLen, if_neg (by have := h (k + 1) (by omega) (by omega); linarith)]
    rw [ih (k + 1) (fun j h1 h2 => h j (by omega) (by omega))]
    omega

theorem stopLen_eq_first (C : ℕ → ℚ) : ∀ n k i, k < i → i ≤ k + n →
    C i ≤ 0 → (∀ j, k < j → j < i → 0 < C j) → stopLen C k n = i - k := by
  intro n
  induction n with
  | zero => intro k i h1 h2 _ _; omega
  | succ n ih =>
    intro k i h1 h2 hC hpos
    rw [stopLen]
    by_cases hd : C (k + 1) ≤ 0
    · rw [if_pos hd]
      have : i = k + 1 := by
        by_contra hne
        have := hpos (k + 1) (by omega) (by omega)
        linarith
      omega
    · rw [if_neg hd]
      have hik : k + 1 < i := by
        rcases Nat.lt_or_ge (k + 1) i with h | h
        · exact h
        · have : i = k + 1 := by omega
          rw [this] at hC; exact absurd hC hd
      rw [ih (k + 1) i hik (by omega) hC
        (fun j ha hb => hpos j (by omega) hb)]
      omega

theorem stopLen_le_stopLen (C₁ C₂ : ℕ → ℚ) : ∀ n k,
    (∀ j, k < j → C₂ j ≤ 0 → C₁ j ≤ 0) →
    stopLen C₁ k n ≤ stopLen C₂ k n := by
  intro n
  induction n with
  | zero => intro k _; simp [stopLen]
  | succ n ih =>
    intro k h
    rw [stopLen, stopLen]
    by_cases hd2 : C₂ (k + 1) ≤ 0
    · rw [if_pos hd2, if_pos (h (k + 1) (by omega) hd2)]
    · rw [if_neg hd2]
      by_cases hd1 : C₁ (k + 1) ≤ 0
      · rw [if_pos hd1]; omega
      · rw [if_neg hd1]
        have := ih (k + 1) (fun j hj => h j (by omega))
        omega

theorem stopLen_eq_one (C : ℕ → ℚ) (n k : ℕ) (hn : 1 ≤ n)
    (h : C (k + 1) ≤ 0) : stopLen C k n = 1 := by
  obtain ⟨m, rfl⟩ : ∃ m, n = m + 1 := ⟨n - 1, by omega⟩
  rw [stopLen, if_pos h]

/-! ### Closed forms of the sequences -/

theorem expSeq_eq (ae ir : ℚ) : ∀ n, expSeq ae ir n = ae * (1 + ir / 100) ^ n := by
  intro n
  induction n with
  | zero => simp [expSeq]
  | succ n ih => rw [expSeq, ih, pow_succ]; ring

theorem wdSeq_eq (ic wr ae ir : ℚ) : ∀ n,
    wdSeq ic wr ae ir n = max ae (ic * (wr / 100)) * (1 + ir / 100) ^ n := by
  intro n
  induction n with
  | zero => simp [wdSeq]
  | succ n ih => rw [wdSeq, ih, pow_succ]; ring

theorem capSeq_eq_linRec (ic wr ae rr ir tr tp : ℚ)
    (hg : 0 ≤ 1 + ir / 100) : ∀ n, capSeq ic wr ae rr ir tr tp n =
      linRec (rateFactor rr tr tp) (1 + ir / 100) (max ae (ic * (wr / 100)))
        ic n := by
  intro n
  induction n with
  | zero => rfl
  | succ n ih =>
    rw [capSeq, linRec, ← ih]
    have hmax : max (expSeq ae ir (n + 1)) (wdSeq ic wr ae ir (n + 1)) =
        max ae (ic * (wr / 100)) * (1 + ir / 100) ^ (n + 1) := by
      rw [expSeq_eq, wdSeq_eq]
      exact max_eq_right (mul_le_mul_of_nonneg_right (le_max_left _ _)
        (pow_nonneg hg _))
    rw [hmax, growthOf, taxOf, rateFactor]
    ring

/-! ### Comparison lemmas for the linear recurrence -/

theorem linRec_le_linRec (M g W₁ W₂ c₁ c₂ : ℚ) (hM : 0 ≤ M) (hg : 0 ≤ g)
    (hc : c₁ ≤ c₂) (hW : W₂ ≤ W₁) : ∀ n,
    linRec M g W₁ c₁ n ≤ linRec M g W₂ c₂ n := by
  intro n
  induction n with
  | zero => exact hc
  | succ n ih =>
    rw [linRec, linRec]
    have h1 := mul_le_mul_of_nonneg_left ih hM
    have h2 := mul_le_mul_of_nonneg_right hW (pow_nonneg hg (n + 1))
    linarith

theorem linRec_mul_le (M g W₁ W₂ c₁ c₂ a b : ℚ) (hM : 0 ≤ M) (hg : 0 ≤ g)
    (hb : 0 ≤ b) (hc : c₁ * a ≤ c₂ * b) (hW : W₂ * b ≤ W₁ * a) : ∀ n,
    linRec M g W₁ c₁ n * a ≤ linRec M g W₂ c₂ n * b := by
  intro n
  induction n with
  | zero => exact hc
  | succ n ih =>
    rw [linRec, linRec]
    have h1 := mul_le_mul_of_nonneg_left ih hM
    have h2 := mul_le_mul_of_nonneg_right hW (pow_nonneg hg (n + 1))
    nlinarith [h1, h2]

theorem linRec_one_nonpos (M g W c0 : ℚ) (hMc : M * c0 ≤ 0) (hW : 0 ≤ W)
    (hg : 0 ≤ g) : linRec M g W c0 1 ≤ 0 := by
  have : linRec M g W c0 1 = M * c0 - W * g ^ 1 := rfl
  rw [this]
  have := mul_nonneg hW (pow_nonneg hg 1)
  linarith

/-! ### Run-level monotonicity of the survival length -/

/-- If the product of the one-year balance multiplier and the starting capital
is nonpositive, the run dies at its first step. -/
theorem stopLen_eq_one_of_nonpos_mul (ic wr ae rr ir tr tp : ℚ) (T : ℕ)
    (hT : 1 ≤ T) (hg : 0 ≤ 1 + ir / 100) (hae : 0 ≤ ae)
    (h : rateFactor rr tr tp * ic ≤ 0) :
    stopLen (capSeq ic wr ae rr ir tr tp) 0 T = 1 := by
  apply stopLen_eq_one _ _ _ hT
  rw [capSeq_eq_linRec _ _ _ _ _ _ _ hg]
  exact linRec_one_nonpos _ _ _ _ h (le_trans hae (le_max_left _ _)) hg

/-- Monotonicity of the survival length in the initial capital
(`0 ≤ ic₁ ≤ ic₂`, all other assumptions fixed). -/
theorem stopLen_mono_ic (wr ae rr ir tr tp : ℚ) (T : ℕ)
    (hg : 0 ≤ 1 + ir / 100) (hae : 0 ≤ ae) (ic₁ ic₂ : ℚ) (h1 : 0 ≤ ic₁)
    (h12 : ic₁ ≤ ic₂) :
    stopLen (capSeq ic₁ wr ae rr ir tr tp) 0 T ≤
      stopLen (capSeq ic₂ wr ae rr ir tr tp) 0 T := by
  rcases le_or_lt 0 (rateFactor rr tr tp) with hM | hM
  · apply stopLen_le_stopLen
    intro j _ hC2
    rw [capSeq_eq_linRec _ _ _ _ _ _ _ hg] at hC2 ⊢
    rcases le_or_lt (ic₂ * (wr / 100)) ae with hA | hB
    · have hW2 : max ae (ic₂ * (wr / 100)) = ae := max_eq_left hA
      have hW1 : max ae (ic₁ * (wr / 100)) = ae := by
        apply max_eq_left
        rcases le_or_lt 0 (wr / 100) with hq | hq
        · exact le_trans (mul_le_mul_of_nonneg_right h12 hq) hA
        · exact le_trans (mul_nonpos_of_nonneg_of_nonpos h1 (le_of_lt hq))
            hae
      rw [hW1]
      rw [hW2] at hC2
      exact le_trans (linRec_le_linRec _ _ _ _ _ _ hM hg h12 le_rfl j) hC2
    · have hic2 : 0 < ic₂ := by
        rcases lt_or_le 0 ic₂ with h | h
        · exact h
        · exfalso
          have hic2z : ic₂ = 0 := le_antisymm h (le_trans h1 h12)
          rw [hic2z, zero_mul] at hB
          linarith
      have hW2 : max ae (ic₂ * (wr / 100)) = ic₂ * (wr / 100) :=
        max_eq_right (le_of_lt hB)
      rw [hW2] at hC2
      have key := linRec_mul_le (rateFactor rr tr tp) (1 + ir / 100)
        (max ae (ic₁ * (wr / 100))) (ic₂ * (wr / 100)) ic₁ ic₂ ic₂ ic₁
        hM hg h1 (by ring_nf; exact le_rfl)
        (by
          have := mul_le_mul_of_nonneg_right
            (le_max_right ae (ic₁ * (wr / 100))) (le_of_lt hic2)
          calc ic₂ * (wr / 100) * ic₁ = ic₁ * (wr / 100) * ic₂ := by ring
            _ ≤ max ae (ic₁ * (wr / 100)) * ic₂ := this) j
      have h2 : linRec (rateFactor rr tr tp) (1 + ir / 100)
          (ic₂ * (wr / 100)) ic₂ j * ic₁ ≤ 0 := by
        calc linRec (rateFactor rr tr tp) (1 + ir / 100)
              (ic₂ * (wr / 100)) ic₂ j * ic₁ ≤ 0 * ic₁ :=
            mul_le_mul_of_nonneg_right hC2 h1
          _ = 0 := zero_mul _
      have h3 : linRec (rateFactor rr tr tp) (1 + ir / 100)
          (max ae (ic₁ * (wr / 100))) ic₁ j * ic₂ ≤ 0 * ic₂ := by
        rw [zero_mul]; exact le_trans key h2
      exact le_of_mul_le_mul_right h3 hic2
  · cases T with
    | zero => simp [stopLen]
    | succ T' =>
      rw [stopLen_eq_one_of_nonpos_mul _ _ _ _ _ _ _ _ (by omega) hg hae
        (mul_nonpos_of_nonpos_of_nonneg (le_of_lt hM) h1)]
      exact one_le_stopLen _ _ _ (by omega)

/-- Monotonicity of the survival length in the year-0 withdrawal: with the
same initial capital, a run whose year-0 withdrawal is at least the other's
survives at most as long. -/
theorem stopLen_mono_w0 (ic wr₁ ae₁ wr₂ ae₂ rr ir tr tp : ℚ) (T : ℕ)
    (hg : 0 ≤ 1 + ir / 100) (hic : 0 ≤ ic) (hae1 : 0 ≤ ae₁)
    (hW : max ae₂ (ic * (wr₂ / 100)) ≤ max ae₁ (ic * (wr₁ / 100))) :
    stopLen (capSeq ic wr₁ ae₁ rr ir tr tp) 0 T ≤
      stopLen (capSeq ic wr₂ ae₂ rr ir tr tp) 0 T := by
  rcases le_or_lt 0 (rateFactor rr tr tp) with hM | hM
  · apply stopLen_le_stopLen
    intro j _ hC2
    rw [capSeq_eq_linRec _ _ _ _ _ _ _ hg] at hC2 ⊢
    exact le_trans (linRec_le_linRec _ _ _ _ _ _ hM hg le_rfl hW j) hC2
  · cases T with
    | zero => simp [stopLen]
    | succ T' =>
      rw [stopLen_eq_one_of_nonpos_mul _ _ _ _ _ _ _ _ (by omega) hg hae1
        (mul_nonpos_of_nonpos_of_nonneg (le_of_lt hM) hic)]
      exact one_le_stopLen _ _ _ (by omega)

/-! ### Properties of the bisection loop -/

/-- `bisectFuel` supplies enough fuel: the initial width is at most
`tol * 2 ^ bisectFuel tol width`. -/
theorem bisectFuel_le (tol width : ℚ) (htol : 0 < tol) :
    width ≤ tol * 2 ^ bisectFuel tol width := by
  rw [bisectFuel]
  set n : ℕ := (⌈width / tol⌉).toNat with hn
  have h1 : width / tol ≤ (n : ℚ) := by
    calc width / tol ≤ (⌈width / tol⌉ : ℚ) := Int.le_ceil _
      _ ≤ ((n : ℤ) : ℚ) := by
          rw [hn]
          exact_mod_cast Int.self_le_toNat _
      _ = (n : ℚ) := by push_cast; rfl
  have h2 : (n : ℚ) ≤ 2 ^ (n + 1) := by
    have hnat : n ≤ 2 ^ (n + 1) :=
      le_of_lt (lt_of_lt_of_le (Nat.lt_two_pow n)
        (Nat.pow_le_pow_right (by norm_num) (by omega)))
    exact_mod_cast hnat
  have h3 : width / tol ≤ 2 ^ (n + 1) := le_trans h1 h2
  have := (div_le_iff htol).mp h3
  linarith

/-- Bracketing invariant of the bisection: with a failing lower bound and a
succeeding upper bound, and enough fuel that the loop exits only when the
interval is narrower than the tolerance, the returned value succeeds and is
within the tolerance of some failing value. -/
theorem bisectLoop_bracket (tol : ℚ) (htol : 0 < tol) (P : ℚ → Bool) :
    ∀ (fuel : ℕ) (low high : ℚ), 0 ≤ low → low ≤ high →
      high - low ≤ tol * 2 ^ fuel → P low = false → P high = true →
      P (bisectLoop tol P low high fuel) = true ∧
      ∃ l, 0 ≤ l ∧ P l = false ∧ bisectLoop tol P low high fuel - tol ≤ l := by
  intro fuel
  induction fuel with
  | zero =>
    intro low high h0 hlh hw hPl hPh
    rw [bisectLoop]
    refine ⟨hPh, low, h0, hPl, ?_⟩
    rw [pow_zero, mul_one] at hw
    linarith
  | succ fuel ih =>
    intro low high h0 hlh hw hPl hPh
    rw [bisectLoop]
    by_cases hc : high - low > tol
    · rw [if_pos hc]
      have hlow_lt : low < high := by linarith
      have hmid1 : low ≤ (low + high) / 2 := by linarith
      have hmid2 : (low + high) / 2 ≤ high := by linarith
      have hw2 : high - (low + high) / 2 ≤ tol * 2 ^ fuel := by
        rw [pow_succ] at hw; linarith
      have hw1 : (low + high) / 2 - low ≤ tol * 2 ^ fuel := by
        rw [pow_succ] at hw; linarith
      cases hP : P ((low + high) / 2) with
      | true =>
        simp only [hP, if_true]
        exact ih low ((low + high) / 2) h0 hmid1 hw1 hPl hP
      | false =>
        simp only [hP, Bool.false_eq_true, if_false]
        exact ih ((low + high) / 2) high (le_trans h0 hmid1) hmid2 hw2 hP hPh
    · rw [if_neg hc]
      push_neg at hc
      exact ⟨hPh, low, h0, hPl, by linarith⟩

/-- If every point of the search interval fails, the bisection returns the
(unchanged) upper bound. -/
theorem bisectLoop_const (tol : ℚ) (htol : 0 < tol) (P : ℚ → Bool) :
    ∀ (fuel : ℕ) (low high : ℚ), low ≤ high →
      (∀ x, low ≤ x → x ≤ high → P x = false) →
      bisectLoop tol P low high fuel = high := by
  intro fuel
  induction fuel with
  | zero => intro low high _ _; rw [bisectLoop]
  | succ fuel ih =>
    intro low high hlh hall
    rw [bisectLoop]
    by_cases hc : high - low > tol
    · rw [if_pos hc]
      have hmid1 : low ≤ (low + high) / 2 := by linarith
      have hmid2 : (low + high) / 2 ≤ high := by linarith
      have hPm := hall ((low + high) / 2) hmid1 hmid2
      simp only [hPm, Bool.false_eq_true, if_false]
      exact ih ((low + high) / 2) high hmid2
        (fun x hx1 hx2 => hall x (le_trans hmid1 hx1) hx2)
    · rw [if_neg hc]

/-- One bisection step in which the midpoint succeeds: `high` moves down. -/
theorem bisectLoop_step_true (tol : ℚ) (P : ℚ → Bool) (low high mid : ℚ)
    (fuel : ℕ) (hc : high - low > tol) (hmid : (low + high) / 2 = mid)
    (hP : P mid = true) :
    bisectLoop tol P low high (fuel + 1) = bisectLoop tol P low mid fuel := by
  rw [bisectLoop, if_pos hc]
  simp only [hmid, hP, if_true]

/-- One bisection step in which the midpoint fails: `low` moves up. -/
theorem bisectLoop_step_false (tol : ℚ) (P : ℚ → Bool) (low high mid : ℚ)
    (fuel : ℕ) (hc : high - low > tol) (hmid : (low + high) / 2 = mid)
    (hP : P mid = false) :
    bisectLoop tol P low high (fuel + 1) = bisectLoop tol P mid high fuel := by
  rw [bisectLoop, if_pos hc]
  simp only [hmid, hP, Bool.false_eq_true, if_false]

/-- The bisection loop exits with `high` when the interval is narrow. -/
theorem bisectLoop_stop (tol : ℚ) (P : ℚ → Bool) (low high : ℚ) (fuel : ℕ)
    (hc : ¬ high - low > tol) :
    bisectLoop tol P low high (fuel + 1) = high := by
  rw [bisectLoop, if_neg hc]

/-! ### The claims -/

/-- C1: for the scenario `initial_capital = 1000000`,
`annual_expenses = 40000`, `withdrawal_rate = 4`, `return_rate = 10`,
`inflation_rate = 3.8`, `tax_rate = 15`, `taxable_percentage = 50` in exact
rational arithmetic, `calculate_retirement` produces year-0 withdrawal
`40000`, year-1 expense `41520`, year-1 actual withdrawal `41520`, year-1
growth `100000`, year-1 tax `7500`, and year-1 capital exactly `1050980`. -/
theorem claim1 :
    calculate_retirement 1000000 4 40000 1 10 (19 / 5) 15 50 =
      ([1000000, 1050980], [40000, 41520], [40000, 41520]) ∧
    growthOf 1000000 10 = 100000 ∧ taxOf 100000 50 15 = 7500 := by
  refine ⟨?_, by norm_num [growthOf], by norm_num [taxOf]⟩
  norm_num [calculate_retirement, calcLoop, growthOf, taxOf, max_def]

/-- C2: if the first step `i` with `1 ≤ i ≤ horizon_years` at which the
unfloored new balance is `≤ 0` exists, iteration stops after recording that
step: all three returned sequences have length exactly `i + 1` and the last
capital entry equals `0`. -/
theorem claim2 (ic wr ae rr ir tr tp : ℚ) (T i : ℕ) (h1 : 1 ≤ i)
    (h2 : i ≤ T) (hdep : capSeq ic wr ae rr ir tr tp i ≤ 0)
    (hfirst : ∀ k, 1 ≤ k → k < i → 0 < capSeq ic wr ae rr ir tr tp k) :
    (calculate_retirement ic wr ae T rr ir tr tp).1.length = i + 1 ∧
    (calculate_retirement ic wr ae T rr ir tr tp).2.1.length = i + 1 ∧
    (calculate_retirement ic wr ae T rr ir tr tp).2.2.length = i + 1 ∧
    (calculate_retirement ic wr ae T rr ir tr tp).1.getLast? = some 0 := by
  have hstop : stopLen (capSeq ic wr ae rr ir tr tp) 0 T = i := by
    have := stopLen_eq_first (capSeq ic wr ae rr ir tr tp) T 0 i (by omega)
      (by omega) hdep (fun j hj1 hj2 => hfirst j (by omega) hj2)
    simpa using this
  refine ⟨?_, ?_, ?_, ?_⟩
  · rw [cap_length, hstop]
  · rw [exp_length, hstop]
  · rw [wd_length, hstop]
  · rw [calculate_retirement_eq, hstop]
    obtain ⟨j, rfl⟩ : ∃ j, i = j + 1 := ⟨i - 1, by omega⟩
    rw [List.range_succ, List.map_append]
    show (ic :: ((List.range j).map _ ++ [max 0 (capSeq ic wr ae rr ir tr tp
      (j + 1))])).getLast? = some 0
    rw [show ic :: ((List.range j).map (fun t => max 0
        (capSeq ic wr ae rr ir tr tp (t + 1))) ++
        [max 0 (capSeq ic wr ae rr ir tr tp (j + 1))]) =
      (ic :: (List.range j).map (fun t => max 0
        (capSeq ic wr ae rr ir tr tp (t + 1)))) ++
        [max 0 (capSeq ic wr ae rr ir tr tp (j + 1))] from rfl]
    rw [List.getLast?_concat]
    rw [max_eq_left hdep]

/-- Witness for C2 at a concrete scenario: capital `100`, expenses `60`,
no growth or inflation, first depletion at step `2` of a 5-year horizon. -/
theorem claim2_witness :
    (calculate_retirement 100 0 60 5 0 0 0 0).1.length = 2 + 1 ∧
    (calculate_retirement 100 0 60 5 0 0 0 0).2.1.length = 2 + 1 ∧
    (calculate_retirement 100 0 60 5 0 0 0 0).2.2.length = 2 + 1 ∧
    (calculate_retirement 100 0 60 5 0 0 0 0).1.getLast? = some 0 :=
  claim2 100 0 60 0 0 0 0 5 2 (by norm_num) (by norm_num)
    (by norm_num [capSeq, expSeq, wdSeq, growthOf, taxOf, max_def])
    (fun k hk1 hk2 => by
      have hk : k = 1 := by omega
      subst hk
      norm_num [capSeq, expSeq, wdSeq, growthOf, taxOf, max_def])

/-- C7: whenever the after-tax real return is zero, the computation of the
perpetuity-required capital signals a distinguishable domain error (`none`,
embedding Python's `ZeroDivisionError`) instead of an unflagged value. -/
theorem claim7 (ae rr ir tr tp : ℚ)
    (h : after_tax_real_return_rate rr ir tr tp = 0) :
    required_capital_perpetuity ae rr ir tr tp = none := by
  rw [required_capital_perpetuity, if_pos (by rw [h]; norm_num)]

/-- Witness for C7: `return_rate = inflation_rate = 3.8` with no tax. -/
theorem claim7_witness :
    after_tax_real_return_rate (19 / 5) (19 / 5) 0 0 = 0 ∧
    required_capital_perpetuity 40000 (19 / 5) (19 / 5) 0 0 = none :=
  ⟨by norm_num [after_tax_real_return_rate, real_return_rate],
    claim7 40000 (19 / 5) (19 / 5) 0 0
      (by norm_num [after_tax_real_return_rate, real_return_rate])⟩

/-- C8: the computed after-tax real return equals
`(return_rate - inflation_rate) * (1 - tax_rate/100 * taxable_percentage/100)`,
and for nonzero initial capital the derived perpetuity withdrawal rate equals
the after-tax real return exactly. -/
theorem claim8 (ic rr ir tr tp : ℚ) (hic : ic ≠ 0) :
    after_tax_real_return_rate rr ir tr tp =
      (rr - ir) * (1 - (tr / 100) * (tp / 100)) ∧
    perpetuity_withdrawal_rate ic rr ir tr tp =
      some (after_tax_real_return_rate rr ir tr tp) := by
  refine ⟨rfl, ?_⟩
  rw [perpetuity_withdrawal_rate, if_neg hic, sustainable_withdrawal]
  congr 1
  field_simp
  ring

/-- Witness for C8 at the default scenario values. -/
theorem claim8_witness :
    after_tax_real_return_rate 10 (19 / 5) 15 50 =
      (10 - 19 / 5) * (1 - (15 / 100) * (50 / 100)) ∧
    perpetuity_withdrawal_rate 1000000 10 (19 / 5) 15 50 =
      some (after_tax_real_return_rate 10 (19 / 5) 15 50) :=
  claim8 1000000 10 (19 / 5) 15 50 (by norm_num)

/-- Counterexample to C5 as stated: with `inflation_rate = -200` (a legal
input per the specification, which validates no rate's sign) the inflation
factor is `-1`; starting capital `30` survives `4` steps while the smaller
starting capital `15` survives `6` steps, so a larger initial capital yields
a strictly shorter capital sequence. -/
theorem claim5_counterexample :
    (15 : ℚ) ≤ 30 ∧
    (calculate_retirement 30 100 10 10 0 (-200) 0 0).1.length = 5 ∧
    (calculate_retirement 15 100 10 10 0 (-200) 0 0).1.length = 7 := by
  refine ⟨by norm_num, ?_, ?_⟩ <;>
    norm_num [calculate_retirement, calcLoop, growthOf, taxOf, max_def]

/-- C5 amended: the sequence-length monotonicity holds provided the inflation
factor `1 + inflation_rate/100` is nonnegative and capitals and expenses are
nonnegative (the data-model ranges): a larger initial capital never yields a
strictly shorter capital sequence, and a smaller withdrawal rate or smaller
annual expenses never yields a strictly shorter capital sequence. -/
theorem claim5_amended (rr ir tr tp : ℚ) (T : ℕ) (hg : 0 ≤ 1 + ir / 100) :
    (∀ wr ae ic₁ ic₂, 0 ≤ ae → 0 ≤ ic₁ → ic₁ ≤ ic₂ →
      (calculate_retirement ic₁ wr ae T rr ir tr tp).1.length ≤
        (calculate_retirement ic₂ wr ae T rr ir tr tp).1.length) ∧
    (∀ ic wr₁ wr₂ ae, 0 ≤ ae → 0 ≤ ic → wr₁ ≤ wr₂ →
      (calculate_retirement ic wr₂ ae T rr ir tr tp).1.length ≤
        (calculate_retirement ic wr₁ ae T rr ir tr tp).1.length) ∧
    (∀ ic wr ae₁ ae₂, 0 ≤ ic → 0 ≤ ae₁ → ae₁ ≤ ae₂ →
      (calculate_retirement ic wr ae₂ T rr ir tr tp).1.length ≤
        (calculate_retirement ic wr ae₁ T rr ir tr tp).1.length) := by
  refine ⟨?_, ?_, ?_⟩
  · intro wr ae ic₁ ic₂ hae h1 h12
    rw [cap_length, cap_length]
    exact Nat.add_le_add_right
      (stopLen_mono_ic wr ae rr ir tr tp T hg hae ic₁ ic₂ h1 h12) 1
  · intro ic wr₁ wr₂ ae hae hic h12
    rw [cap_length, cap_length]
    refine Nat.add_le_add_right
      (stopLen_mono_w0 ic wr₂ ae wr₁ ae rr ir tr tp T hg hic hae ?_) 1
    exact max_le_max le_rfl
      (mul_le_mul_of_nonneg_left (by linarith) hic)
  · intro ic wr ae₁ ae₂ hic hae1 h12
    rw [cap_length, cap_length]
    refine Nat.add_le_add_right
      (stopLen_mono_w0 ic wr ae₂ wr ae₁ rr ir tr tp T hg hic
        (le_trans hae1 h12) ?_) 1
    exact max_le_max h12 le_rfl

/-- Witness for the amended C5: larger initial capital, zero inflation. -/
theorem claim5_amended_witness :
    (calculate_retirement 15 4 10 10 0 0 0 0).1.length ≤
      (calculate_retirement 30 4 10 10 0 0 0 0).1.length :=
  (claim5_amended 0 0 0 0 10 (by norm_num)).1 4 10 15 30 (by norm_num)
    (by norm_num) (by norm_num)

/-- Counterexample to C6 as stated: capital `100`, expenses `50`, no growth
or inflation, horizon `T = 2`.  The run depletes (the unfloored balance hits
`0` at step `2`), yet all sequences have length `3 = T + 1`, not strictly
less than `T + 1`. -/
theorem claim6_counterexample :
    capSeq 100 0 50 0 0 0 0 2 ≤ 0 ∧
    ¬ (calculate_retirement 100 0 50 2 0 0 0 0).1.length < 2 + 1 := by
  constructor
  · norm_num [capSeq, expSeq, wdSeq, growthOf, taxOf, max_def]
  · norm_num [calculate_retirement, calcLoop, growthOf, taxOf, max_def]

/-- C6 amended: the three sequences share index `0` and always have the same
length, at most `T + 1`; if capital never depletes within the horizon the
common length is exactly `T + 1`; if the first depletion happens at step
`i ≤ T` the common length is `i + 1`, which is strictly less than `T + 1`
exactly when `i < T` (depletion at the final step `i = T` still yields full
length `T + 1`, with final capital entry `0`). -/
theorem claim6_amended (ic wr ae rr ir tr tp : ℚ) (T : ℕ) :
    ((calculate_retirement ic wr ae T rr ir tr tp).1.length =
        (calculate_retirement ic wr ae T rr ir tr tp).2.1.length ∧
      (calculate_retirement ic wr ae T rr ir tr tp).1.length =
        (calculate_retirement ic wr ae T rr ir tr tp).2.2.length ∧
      (calculate_retirement ic wr ae T rr ir tr tp).1.head? = some ic ∧
      (calculate_retirement ic wr ae T rr ir tr tp).1.length ≤ T + 1) ∧
    ((∀ k, 1 ≤ k → k ≤ T → 0 < capSeq ic wr ae rr ir tr tp k) →
      (calculate_retirement ic wr ae T rr ir tr tp).1.length = T + 1) ∧
    (∀ i, 1 ≤ i → i ≤ T → capSeq ic wr ae rr ir tr tp i ≤ 0 →
      (∀ k, 1 ≤ k → k < i → 0 < capSeq ic wr ae rr ir tr tp k) →
      (calculate_retirement ic wr ae T rr ir tr tp).1.length = i + 1 ∧
        (i < T →
          (calculate_retirement ic wr ae T rr ir tr tp).1.length < T + 1)) := by
  refine ⟨⟨?_, ?_, ?_, ?_⟩, ?_, ?_⟩
  · rw [cap_length, exp_length]
  · rw [cap_length, wd_length]
  · rw [calculate_retirement_eq]; rfl
  · rw [cap_length]
    have := stopLen_le (capSeq ic wr ae rr ir tr tp) T 0
    omega
  · intro hpos
    rw [cap_length]
    rw [stopLen_eq_of_pos (capSeq ic wr ae rr ir tr tp) T 0
      (fun j hj1 hj2 => hpos j (by omega) (by omega))]
  · intro i hi1 hi2 hdep hfirst
    have hstop : stopLen (capSeq ic wr ae rr ir tr tp) 0 T = i := by
      have := stopLen_eq_first (capSeq ic wr ae rr ir tr tp) T 0 i (by omega)
        (by omega) hdep (fun j hj1 hj2 => hfirst j (by omega) hj2)
      simpa using this
    rw [cap_length, hstop]
    exact ⟨rfl, fun h => by omega⟩

/-- Witness for the amended C6: first depletion at step `2` of a 5-year
horizon gives common length `3 < 6`. -/
theorem claim6_amended_witness :
    (calculate_retirement 100 0 80 5 0 0 0 0).1.length = 2 + 1 ∧
    (2 < 5 → (calculate_retirement 100 0 80 5 0 0 0 0).1.length < 5 + 1) :=
  (claim6_amended 100 0 80 0 0 0 0 5).2.2 2 (by norm_num) (by norm_num)
    (by norm_num [capSeq, expSeq, wdSeq, growthOf, taxOf, max_def])
    (fun k hk1 hk2 => by
      have hk : k = 1 := by omega
      subst hk
      norm_num [capSeq, expSeq, wdSeq, growthOf, taxOf, max_def])

/-- Helper: zipping two pointwise-comparable mapped lists with `max`. -/
theorem zipWith_max_map (E F : ℕ → ℚ) : ∀ l : List ℕ,
    (∀ t ∈ l, max (E t) (F t) = F t) →
    List.zipWith max (l.map E) (l.map F) = l.map F := by
  intro l
  induction l with
  | nil => intro _; rfl
  | cons a l ih =>
    intro h
    simp only [List.map_cons, List.zipWith_cons_cons]
    rw [h a (List.mem_cons_self a l), ih (fun t ht => h t (List.mem_cons_of_mem a ht))]

/-- C10: the recorded withdrawals sequence is exactly the geometric sequence
`max(annual_expenses, initial_capital * withdrawal_rate/100) *
(1 + inflation_rate/100)^i`, and whenever the inflation factor is
nonnegative, the recorded withdrawal is exactly the amount subtracted from
capital that year: the max of the escalated expense and the escalated floor
equals the recorded withdrawal at every index (hence
`withdrawals[i] ≥ expenses[i]`). -/
theorem claim10 (ic wr ae rr ir tr tp : ℚ) (T : ℕ) :
    (calculate_retirement ic wr ae T rr ir tr tp).2.2 =
      (List.range
        (calculate_retirement ic wr ae T rr ir tr tp).2.2.length).map
        (fun i => max ae (ic * (wr / 100)) * (1 + ir / 100) ^ i) ∧
    (0 ≤ 1 + ir / 100 →
      List.zipWith max (calculate_retirement ic wr ae T rr ir tr tp).2.1
          (calculate_retirement ic wr ae T rr ir tr tp).2.2 =
        (calculate_retirement ic wr ae T rr ir tr tp).2.2) := by
  constructor
  · rw [calculate_retirement_eq]
    show max ae (ic * (wr / 100)) :: _ = _
    rw [List.length_cons, List.length_map, List.length_range,
      List.range_succ_eq_map, List.map_cons, List.map_map]
    congr 1
    · rw [pow_zero, mul_one]
    · refine List.map_congr_left ?_
      intro t _
      simp only [Function.comp_apply, Nat.succ_eq_add_one]
      rw [wdSeq_eq]
  · intro hg
    rw [calculate_retirement_eq]
    show List.zipWith max (ae :: _) (max ae (ic * (wr / 100)) :: _) =
      max ae (ic * (wr / 100)) :: _
    rw [List.zipWith_cons_cons,
      max_eq_right (le_max_left ae (ic * (wr / 100))),
      zipWith_max_map _ _ _ ?_]
    intro t _
    rw [expSeq_eq, wdSeq_eq]
    exact max_eq_right (mul_le_mul_of_nonneg_right (le_max_left _ _)
      (pow_nonneg hg _))

/-- Witness for C10 at the example scenario of the specification. -/
theorem claim10_witness :
    (calculate_retirement 1000000 4 40000 1 10 (19 / 5) 15 50).2.2 =
      (List.range
        (calculate_retirement 1000000 4 40000 1 10 (19 / 5) 15 50).2.2.length).map
        (fun i => max 40000 (1000000 * ((4 : ℚ) / 100)) * (1 + 19 / 5 / 100) ^ i) ∧
    List.zipWith max
        (calculate_retirement 1000000 4 40000 1 10 (19 / 5) 15 50).2.1
        (calculate_retirement 1000000 4 40000 1 10 (19 / 5) 15 50).2.2 =
      (calculate_retirement 1000000 4 40000 1 10 (19 / 5) 15 50).2.2 :=
  ⟨(claim10 1000000 4 40000 10 (19 / 5) 15 50 1).1,
    (claim10 1000000 4 40000 10 (19 / 5) 15 50 1).2 (by norm_num)⟩

/-- C3 fails on the code: in rate mode the bisection moves `high` down when
the midpoint survives, which is inverted for the rate search (survival is
decreasing in the rate).  At the failing input below every rate in `[0, 20]`
is sustainable, yet the solver returns `5/512 ≈ 0.0098`; the rate `15`
exceeds the returned value by more than the claimed tolerance `0.01` and its
projection still survives the target horizon. -/
theorem claim3_evaluation :
    find_sustainable_value 3 1 0 0 0 0 false 100 4 = 5 / 512 ∧
    (5 : ℚ) / 512 + 1 / 100 < 15 ∧ (15 : ℚ) ≤ 20 ∧
    3 < (calculate_retirement 100 15 1 3 0 0 0 0).1.length := by
  refine ⟨?_, by norm_num, by norm_num, ?_⟩
  · have hfv : find_sustainable_value 3 1 0 0 0 0 false 100 4 =
        bisectLoop (1 / 100)
          (fun mid => decide (3 <
            (calculate_retirement 100 mid 1 3 0 0 0 0).1.length)) 0 20
          (bisectFuel (1 / 100) (20 - 0)) := by
      simp [find_sustainable_value]
    have hfuel : bisectFuel (1 / 100) (20 - 0) = 2000 + 1 := by
      norm_num [bisectFuel]
      decide
    rw [hfv, hfuel]
    rw [bisectLoop_step_true _ _ 0 20 10 2000 (by norm_num) (by norm_num)
      (by norm_num [calculate_retirement, calcLoop, growthOf, taxOf, max_def])]
    rw [show (2000 : ℕ) = 1999 + 1 from rfl,
      bisectLoop_step_true _ _ 0 10 5 1999 (by norm_num) (by norm_num)
      (by norm_num [calculate_retirement, calcLoop, growthOf, taxOf, max_def])]
    rw [show (1999 : ℕ) = 1998 + 1 from rfl,
      bisectLoop_step_true _ _ 0 5 (5 / 2) 1998 (by norm_num) (by norm_num)
      (by norm_num [calculate_retirement, calcLoop, growthOf, taxOf, max_def])]
    rw [show (1998 : ℕ) = 1997 + 1 from rfl,
      bisectLoop_step_true _ _ 0 (5 / 2) (5 / 4) 1997 (by norm_num)
      (by norm_num)
      (by norm_num [calculate_retirement, calcLoop, growthOf, taxOf, max_def])]
    rw [show (1997 : ℕ) = 1996 + 1 from rfl,
      bisectLoop_step_true _ _ 0 (5 / 4) (5 / 8) 1996 (by norm_num)
      (by norm_num)
      (by norm_num [calculate_retirement, calcLoop, growthOf, taxOf, max_def])]
    rw [show (1996 : ℕ) = 1995 + 1 from rfl,
      bisectLoop_step_true _ _ 0 (5 / 8) (5 / 16) 1995 (by norm_num)
      (by norm_num)
      (by norm_num [calculate_retirement, calcLoop, growthOf, taxOf, max_def])]
    rw [show (1995 : ℕ) = 1994 + 1 from rfl,
      bisectLoop_step_true _ _ 0 (5 / 16) (5 / 32) 1994 (by norm_num)
      (by norm_num)
      (by norm_num [calculate_retirement, calcLoop, growthOf, taxOf, max_def])]
    rw [show (1994 : ℕ) = 1993 + 1 from rfl,
      bisectLoop_step_true _ _ 0 (5 / 32) (5 / 64) 1993 (by norm_num)
      (by norm_num)
      (by norm_num [calculate_retirement, calcLoop, growthOf, taxOf, max_def])]
    rw [show (1993 : ℕ) = 1992 + 1 from rfl,
      bisectLoop_step_true _ _ 0 (5 / 64) (5 / 128) 1992 (by norm_num)
      (by norm_num)
      (by norm_num [calculate_retirement, calcLoop, growthOf, taxOf, max_def])]
    rw [show (1992 : ℕ) = 1991 + 1 from rfl,
      bisectLoop_step_true _ _ 0 (5 / 128) (5 / 256) 1991 (by norm_num)
      (by norm_num)
      (by norm_num [calculate_retirement, calcLoop, growthOf, taxOf, max_def])]
    rw [show (1991 : ℕ) = 1990 + 1 from rfl,
      bisectLoop_step_true _ _ 0 (5 / 256) (5 / 512) 1990 (by norm_num)
      (by norm_num)
      (by norm_num [calculate_retirement, calcLoop, growthOf, taxOf, max_def])]
    rw [show (1990 : ℕ) = 1989 + 1 from rfl,
      bisectLoop_stop _ _ 0 (5 / 512) 1989 (by norm_num)]
  · norm_num [calculate_retirement, calcLoop, growthOf, taxOf, max_def]

/-- Counterexample to C4 as stated: with annual expenses `1000` far beyond
what any capital in the search interval `[0, 10]` sustains, the scenario
depletes at the current capital `1`, yet the returned value is the exhausted
upper bound `10`, whose projection does not survive the target horizon. -/
theorem claim4_counterexample :
    ¬ 3 < (calculate_retirement 1 4 1000 3 0 0 0 0).1.length ∧
    find_sustainable_value 3 1000 0 0 0 0 true 1 4 = 10 ∧
    ¬ 3 < (calculate_retirement 10 4 1000 3 0 0 0 0).1.length := by
  refine ⟨?_, ?_, ?_⟩
  · norm_num [calculate_retirement, calcLoop, growthOf, taxOf, max_def]
  · have hfv : find_sustainable_value 3 1000 0 0 0 0 true 1 4 =
        bisectLoop 1
          (fun mid => decide (3 <
            (calculate_retirement mid 4 1000 3 0 0 0 0).1.length)) 0 10
          (bisectFuel 1 (10 - 0)) := by
      simp [find_sustainable_value]
    have hfuel : bisectFuel 1 (10 - 0) = 10 + 1 := by
      norm_num [bisectFuel]
      decide
    rw [hfv, hfuel]
    rw [bisectLoop_step_false _ _ 0 10 5 10 (by norm_num) (by norm_num)
      (by norm_num [calculate_retirement, calcLoop, growthOf, taxOf, max_def])]
    rw [show (10 : ℕ) = 9 + 1 from rfl,
      bisectLoop_step_false _ _ 5 10 (15 / 2) 9 (by norm_num) (by norm_num)
      (by norm_num [calculate_retirement, calcLoop, growthOf, taxOf, max_def])]
    rw [show (9 : ℕ) = 8 + 1 from rfl,
      bisectLoop_step_false _ _ (15 / 2) 10 (35 / 4) 8 (by norm_num)
      (by norm_num)
      (by norm_num [calculate_retirement, calcLoop, growthOf, taxOf, max_def])]
    rw [show (8 : ℕ) = 7 + 1 from rfl,
      bisectLoop_step_false _ _ (35 / 4) 10 (75 / 8) 7 (by norm_num)
      (by norm_num)
      (by norm_num [calculate_retirement, calcLoop, growthOf, taxOf, max_def])]
    rw [show (7 : ℕ) = 6 + 1 from rfl,
      bisectLoop_stop _ _ (75 / 8) 10 6 (by norm_num)]
  · norm_num [calculate_retirement, calcLoop, growthOf, taxOf, max_def]

/-- C4 amended: under the data-model ranges (`annual_expenses ≥ 0`,
`initial capital ≥ 0`, inflation factor nonnegative, `target_years ≥ 2`) and
provided the search's upper bound `10 × current capital` actually survives
the target horizon, the capital `C*` returned by `find_sustainable_value`
satisfies the solver inverse property: projecting with `C*` survives at
least `target_years` and projecting with `C* - 1` (one tolerance unit less)
does not. -/
theorem claim4_amended (target : ℕ) (ae rr ir tr tp iv wr : ℚ)
    (htarget : 2 ≤ target) (hae : 0 ≤ ae) (hiv : 0 ≤ iv)
    (hg : 0 ≤ 1 + ir / 100)
    (hdep : ¬ target <
      (calculate_retirement iv wr ae target rr ir tr tp).1.length)
    (hbracket : target <
      (calculate_retirement (iv * 10) wr ae target rr ir tr tp).1.length) :
    target < (calculate_retirement
      (find_sustainable_value target ae rr ir tr tp true iv wr)
      wr ae target rr ir tr tp).1.length ∧
    ¬ target < (calculate_retirement
      (find_sustainable_value target ae rr ir tr tp true iv wr - 1)
      wr ae target rr ir tr tp).1.length := by
  have hfv : find_sustainable_value target ae rr ir tr tp true iv wr =
      bisectLoop 1 (fun mid => decide (target <
        (calculate_retirement mid wr ae target rr ir tr tp).1.length)) 0
        (iv * 10) (bisectFuel 1 (iv * 10 - 0)) := by
    simp [find_sustainable_value]
  have hW0 : (0 : ℚ) ≤ max ae (0 * (wr / 100)) :=
    le_trans hae (le_max_left _ _)
  have hcap0 : capSeq 0 wr ae rr ir tr tp 1 ≤ 0 := by
    rw [capSeq_eq_linRec _ _ _ _ _ _ _ hg]
    exact linRec_one_nonpos _ _ _ _ (by simp) hW0 hg
  have hP0 : (fun mid => decide (target <
      (calculate_retirement mid wr ae target rr ir tr tp).1.length)) 0 =
        false := by
    simp only [decide_eq_false_iff_not]
    rw [cap_length, stopLen_eq_one _ target 0 (by omega) hcap0]
    omega
  have hPh : (fun mid => decide (target <
      (calculate_retirement mid wr ae target rr ir tr tp).1.length))
        (iv * 10) = true := by
    simp only [decide_eq_true_eq]
    exact hbracket
  obtain ⟨hPr, l, hl0, hPl, hll⟩ := bisectLoop_bracket 1 one_pos
    (fun mid => decide (target <
      (calculate_retirement mid wr ae target rr ir tr tp).1.length))
    (bisectFuel 1 (iv * 10 - 0)) 0 (iv * 10) le_rfl (by linarith)
    (bisectFuel_le 1 (iv * 10 - 0) one_pos) hP0 hPh
  rw [← hfv] at hPr hll
  have hPrQ : target < (calculate_retirement
      (find_sustainable_value target ae rr ir tr tp true iv wr)
      wr ae target rr ir tr tp).1.length := by
    simpa using hPr
  refine ⟨hPrQ, ?_⟩
  have hM : 0 ≤ rateFactor rr tr tp := by
    by_contra hMneg
    push_neg at hMneg
    have h10 : stopLen (capSeq (iv * 10) wr ae rr ir tr tp) 0 target = 1 :=
      stopLen_eq_one_of_nonpos_mul (iv * 10) wr ae rr ir tr tp target
        (by omega) hg hae
        (mul_nonpos_of_nonpos_of_nonneg (le_of_lt hMneg) (by linarith))
    rw [cap_length, h10] at hbracket
    omega
  have hPlQ : ¬ target <
      (calculate_retirement l wr ae target rr ir tr tp).1.length := by
    simpa using hPl
  rcases le_or_lt 0
    (find_sustainable_value target ae rr ir tr tp true iv wr - 1) with
    hpos | hneg
  · have hmono := stopLen_mono_ic wr ae rr ir tr tp target hg hae
      (find_sustainable_value target ae rr ir tr tp true iv wr - 1) l
      hpos (by linarith)
    rw [cap_length] at hPlQ ⊢
    omega
  · have h1 : stopLen (capSeq
        (find_sustainable_value target ae rr ir tr tp true iv wr - 1)
        wr ae rr ir tr tp) 0 target = 1 :=
      stopLen_eq_one_of_nonpos_mul _ wr ae rr ir tr tp target (by omega) hg
        hae (mul_nonpos_of_nonneg_of_nonpos hM (le_of_lt hneg))
    rw [cap_length, h1]
    omega

/-- Witness for the amended C4: expenses `2`, current capital `4`, no
growth or inflation, target `3` years; the solver returns `35/8`. -/
theorem claim4_amended_witness :
    3 < (calculate_retirement
      (find_sustainable_value 3 2 0 0 0 0 true 4 0) 0 2 3 0 0 0 0).1.length ∧
    ¬ 3 < (calculate_retirement
      (find_sustainable_value 3 2 0 0 0 0 true 4 0 - 1)
      0 2 3 0 0 0 0).1.length :=
  claim4_amended 3 2 0 0 0 0 4 0 (by norm_num) (by norm_num) (by norm_num)
    (by norm_num)
    (by norm_num [calculate_retirement, calcLoop, growthOf, taxOf, max_def])
    (by norm_num [calculate_retirement, calcLoop, growthOf, taxOf, max_def])

/-- C9: in capital mode, if every point of the search interval
`[0, 10 × reference]` fails to survive the target horizon, the solver
returns exactly the exhausted upper bound `10 × reference` — a plain number
with no error flag distinguishable from a converged result. -/
theorem claim9 (target : ℕ) (ae rr ir tr tp iv wr : ℚ) (hiv : 0 ≤ iv)
    (hfail : ∀ c, 0 ≤ c → c ≤ iv * 10 →
      ¬ target < (calculate_retirement c wr ae target rr ir tr tp).1.length) :
    find_sustainable_value target ae rr ir tr tp true iv wr = iv * 10 := by
  have hfv : find_sustainable_value target ae rr ir tr tp true iv wr =
      bisectLoop 1 (fun mid => decide (target <
        (calculate_retirement mid wr ae target rr ir tr tp).1.length)) 0
        (iv * 10) (bisectFuel 1 (iv * 10 - 0)) := by
    simp [find_sustainable_value]
  rw [hfv]
  apply bisectLoop_const 1 one_pos _ _ 0 (iv * 10) (by linarith)
  intro x hx1 hx2
  simp only [decide_eq_false_iff_not]
  exact hfail x hx1 hx2

/-- Witness for C9: expenses `1000` overwhelm every capital in `[0, 10]`. -/
theorem claim9_witness :
    find_sustainable_value 3 1000 0 0 0 0 true 1 0 = 1 * 10 :=
  claim9 3 1000 0 0 0 0 1 0 (by norm_num) (fun c hc0 hc10 => by
    have h1 : capSeq c 0 1000 0 0 0 0 1 ≤ 0 := by
      norm_num [capSeq, expSeq, wdSeq, growthOf, taxOf, max_def]
      linarith
    rw [cap_length, stopLen_eq_one _ 3 0 (by norm_num) h1]
    norm_num)

end FireCalc
